import Mathlib

/-!
# Verification of the testgen-cli generation core

A shallow embedding, in Lean 4, of the generation-orchestration core of the
`testgen-cli` repository: the LLM response cache (`internal/llm/cache.go`,
packaged with the UI sources), the rate limiter and batcher
(`internal/llm/ratelimit.go`), the generation engine
(`internal/generator/engine.go`) and the worker pool
(`internal/generator/worker.go`).

Go strings are modelled as `List Char` (`GoStr`); Go byte slices as
`List Nat` with each element `< 256`; Go `int` parameters as `Int`;
fallible Go calls as `Except`/`Option` values.  Stateful code is modelled
by explicit state passing; the concurrent components (rate limiter, worker
pool) are modelled by traces of atomic events / by the sequential
interleaving semantics of their channel operations.
-/

namespace TestGen

/-- Go strings, modelled as lists of characters. -/
abbrev GoStr := List Char

/-- The character list of a Lean string literal (used to transcribe Go string
literals). -/
def str (s : String) : GoStr := s.data

/-! ## `strings.TrimSpace`

Go's `strings.TrimSpace` removes leading and trailing characters satisfying
`unicode.IsSpace`: `\t \n \v \f \r ' '` U+0085 U+00A0 and the Unicode
space characters U+1680, U+2000–U+200A, U+2028, U+2029, U+202F, U+205F,
U+3000. -/

/-- `unicode.IsSpace` from the Go standard library, by code point: tab (9),
line feed (10), vertical tab (11), form feed (12), carriage return (13),
space (32), next line (133), no-break space (160), ogham space (5760), the
en-quad…hair-space range (8192–8202), line/paragraph separators (8232, 8233),
narrow no-break (8239), medium mathematical (8287) and ideographic space
(12288). -/
def isSpaceGo (c : Char) : Bool :=
  decide (c.toNat ∈ [9, 10, 11, 12, 13, 32, 133, 160, 5760,
                     8232, 8233, 8239, 8287, 12288])
  || decide (8192 ≤ c.toNat ∧ c.toNat ≤ 8202)

/-- `strings.TrimSpace`: drop leading and trailing whitespace. -/
def trimSpace (s : GoStr) : GoStr :=
  ((s.dropWhile isSpaceGo).reverse.dropWhile isSpaceGo).reverse

/-! ## Leftmost regular-expression matching for the engine's two patterns

`extractCodeFromResponse` (engine.go) matches the Go regular expressions
``"```" + language + `\n([\s\S]*?)` + "```"`` and
``"```" + `\n([\s\S]*?)` + "```"`` with `FindStringSubmatch`, i.e. with
leftmost-match semantics and a lazy interior.  For a pattern of the shape
`lit₁ (lazy any) lit₂` this is: the match starts at the first occurrence
of `lit₁` that is followed (after `lit₁`) by an occurrence of `lit₂`, and
the captured interior runs to the first such occurrence of `lit₂`.  Because
an occurrence of `lit₂` after a later occurrence of `lit₁` is also an
occurrence after an earlier one, the match start is simply the first
occurrence of `lit₁` (the whole match fails when no `lit₂` follows it). -/

/-- Index of the first occurrence of `pat` in `s` (`none` when `pat` does not
occur). -/
def firstMatch (pat : GoStr) : GoStr → Option Nat
  | [] => if pat.isEmpty then some 0 else none
  | s@(_ :: rest) =>
    if pat.isPrefixOf s then some 0 else (firstMatch pat rest).map (· + 1)

/-- Whether `pat` occurs somewhere in `s`. -/
def occursIn (pat s : GoStr) : Bool := (firstMatch pat s).isSome

/-- Submatch of a Go regex `lit ++ lazy-any ++ "```"` under leftmost-match
semantics: the interior text between the first occurrence of the opening
literal `openPat` and the first subsequent occurrence of the closing fence. -/
def tryPattern (openPat s : GoStr) : Option GoStr :=
  match firstMatch openPat s with
  | none => none
  | some i =>
    let rest := s.drop (i + openPat.length)
    match firstMatch (str "```") rest with
    | none => none
    | some j => some (rest.take j)

/-- `extractCodeFromResponse` (engine.go): try the language-tagged fenced
block first, then an untagged fenced block, else return the whole response;
the selected text is passed through `strings.TrimSpace`. -/
def extractCodeFromResponse (response language : GoStr) : GoStr :=
  match tryPattern (str "```" ++ language ++ str "\n") response with
  | some interior => trimSpace interior
  | none =>
    match tryPattern (str "```" ++ str "\n") response with
    | some interior => trimSpace interior
    | none => trimSpace response

example : extractCodeFromResponse (str "```go\nfunc TestAdd() !\n```") (str "go")
    = str "func TestAdd() !" := by decide

example : extractCodeFromResponse
      (str "text\n```\nplain\n```\nmid ```go\ntagged\n``` tail") (str "go")
    = str "tagged" := by decide

example : extractCodeFromResponse (str "  no fences here \n") (str "go")
    = str "no fences here" := by decide

/-! ### Occurrence lemmas for `firstMatch` and `tryPattern` -/

theorem firstMatch_isSome_iff {pat s : GoStr} :
    (firstMatch pat s).isSome = true ↔ ∃ i, pat <+: s.drop i := by
  induction s with
  | nil =>
    by_cases hp : pat = []
    · subst hp; simp [firstMatch]
    · simp [firstMatch, List.isEmpty_iff, hp]
  | cons c rest ih =>
    by_cases hpre : pat <+: c :: rest
    · have hb : pat.isPrefixOf (c :: rest) = true := List.isPrefixOf_iff_prefix.mpr hpre
      simp only [firstMatch, hb, if_true, Option.isSome_some, true_iff]
      exact ⟨0, by simpa using hpre⟩
    · have hb : pat.isPrefixOf (c :: rest) = false := by
        rw [Bool.eq_false_iff]
        intro hx
        exact hpre (List.isPrefixOf_iff_prefix.mp hx)
      simp only [firstMatch, hb, Bool.false_eq_true, if_false, Option.isSome_map']
      rw [ih]
      constructor
      · rintro ⟨i, hi⟩
        exact ⟨i + 1, by simpa using hi⟩
      · rintro ⟨i, hi⟩
        cases i with
        | zero => exact absurd (by simpa using hi) hpre
        | succ i => exact ⟨i, by simpa using hi⟩

theorem occursIn_eq_true_iff {pat s : GoStr} :
    occursIn pat s = true ↔ ∃ i, pat <+: s.drop i := firstMatch_isSome_iff

theorem occursIn_eq_false_iff {pat s : GoStr} :
    occursIn pat s = false ↔ ∀ i, ¬ pat <+: s.drop i := by
  rw [← Bool.not_eq_true, occursIn_eq_true_iff]
  exact not_exists

theorem firstMatch_eq_some {pat s : GoStr} {m : Nat}
    (hm : pat <+: s.drop m) (hmin : ∀ i, i < m → ¬ pat <+: s.drop i) :
    firstMatch pat s = some m := by
  induction s generalizing m with
  | nil =>
    have hp : pat = [] := by simpa using hm
    subst hp
    cases m with
    | zero => simp [firstMatch]
    | succ m => exact ((by simpa using hmin 0 (Nat.succ_pos m) : False)).elim
  | cons c rest ih =>
    cases m with
    | zero =>
      have hb : pat.isPrefixOf (c :: rest) = true :=
        List.isPrefixOf_iff_prefix.mpr (by simpa using hm)
      simp [firstMatch, hb]
    | succ m =>
      have h0 : ¬ pat <+: (c :: rest) := by simpa using hmin 0 (Nat.succ_pos m)
      have hb : pat.isPrefixOf (c :: rest) = false := by
        rw [Bool.eq_false_iff]
        intro hx
        exact h0 (List.isPrefixOf_iff_prefix.mp hx)
      have hrec : firstMatch pat rest = some m :=
        ih (by simpa using hm) (fun i hi => by simpa using hmin (i + 1) (Nat.succ_lt_succ hi))
      simp [firstMatch, hb, hrec]

theorem prefix_of_append_of_length_le {p a b : GoStr} (h : p <+: a ++ b)
    (hl : p.length ≤ a.length) : p <+: a := by
  have hp : p = (a ++ b).take p.length := List.prefix_iff_eq_take.mp h
  rw [List.take_append_of_le_length hl] at hp
  rw [hp]
  exact List.take_prefix _ _

theorem straddle_decomp {p a w : GoStr} (h : p <+: a ++ w) (hlt : a.length < p.length) :
    a <+: p ∧ p.drop a.length <+: w := by
  have ha : a <+: p := by
    rcases List.prefix_or_prefix_of_prefix h (List.prefix_append a w) with h1 | h1
    · exact absurd (List.IsPrefix.length_le h1) (by omega)
    · exact h1
  obtain ⟨t, ht⟩ := ha
  have hdrop : p.drop a.length = t := by rw [← ht, List.drop_left]
  refine ⟨⟨t, ht⟩, ?_⟩
  rw [hdrop]
  obtain ⟨u2, hu⟩ := h
  rw [← ht, List.append_assoc] at hu
  exact ⟨u2, List.append_cancel_left hu⟩

theorem no_occ_before {p u v : GoStr}
    (hno : occursIn p (u ++ p.dropLast) = false) :
    ∀ i, i < u.length → ¬ p <+: (u ++ (p ++ v)).drop i := by
  intro i hi hpre
  rw [List.drop_append_of_le_length (Nat.le_of_lt hi)] at hpre
  rw [occursIn_eq_false_iff] at hno
  by_cases hlen : p.length ≤ (u.drop i).length
  · have h1 : p <+: u.drop i := prefix_of_append_of_length_le hpre hlen
    refine hno i ?_
    rw [List.drop_append_of_le_length (Nat.le_of_lt hi)]
    exact h1.trans (List.prefix_append _ _)
  · push_neg at hlen
    obtain ⟨ha, ht⟩ := straddle_decomp hpre hlen
    have hjpos : 0 < (u.drop i).length := by
      simp only [List.length_drop]; omega
    have hlen2 : (p.drop (u.drop i).length).length ≤ p.length - 1 := by
      simp only [List.length_drop]; omega
    have htp : p.drop (u.drop i).length <+: p :=
      prefix_of_append_of_length_le ht (by simp only [List.length_drop]; omega)
    have ht2 : p.drop (u.drop i).length
        = p.dropLast.take (p.drop (u.drop i).length).length := by
      rw [List.dropLast_eq_take, List.take_take, Nat.min_eq_left hlen2]
      exact List.prefix_iff_eq_take.mp htp
    have htdl : p.drop (u.drop i).length <+: p.dropLast := by
      rw [List.prefix_iff_eq_take]
      exact ht2
    obtain ⟨t0, ht0⟩ := ha
    have ht0' : t0 = p.drop (u.drop i).length := by rw [← ht0, List.drop_left]
    refine hno i ?_
    rw [List.drop_append_of_le_length (Nat.le_of_lt hi)]
    obtain ⟨t1, ht1⟩ := htdl
    refine ⟨t1, ?_⟩
    conv_lhs => rw [← ht0, ht0']
    rw [List.append_assoc, ht1]

theorem firstMatch_append_pattern {p u v : GoStr}
    (hno : occursIn p (u ++ p.dropLast) = false) :
    firstMatch p (u ++ (p ++ v)) = some u.length := by
  refine firstMatch_eq_some ?_ (no_occ_before hno)
  rw [List.drop_left]
  exact List.prefix_append _ _

theorem occursIn_append_dropLast_false {p u : GoStr}
    (hnso : ∀ j, 0 < j → j < p.length → ¬ p.drop j <+: p)
    (hu : occursIn p u = false) :
    occursIn p (u ++ p.dropLast) = false := by
  by_cases hp : p = []
  · subst hp
    exact absurd List.nil_prefix (occursIn_eq_false_iff.mp hu 0)
  rw [occursIn_eq_false_iff] at hu ⊢
  intro i hpre
  by_cases hi : i < u.length
  · rw [List.drop_append_of_le_length (Nat.le_of_lt hi)] at hpre
    by_cases hlen : p.length ≤ (u.drop i).length
    · exact hu i (prefix_of_append_of_length_le hpre hlen)
    · push_neg at hlen
      obtain ⟨ha, ht⟩ := straddle_decomp hpre hlen
      have hjpos : 0 < (u.drop i).length := by
        simp only [List.length_drop]; omega
      exact hnso (u.drop i).length hjpos hlen (ht.trans ( List.dropLast_prefix p))
  · push_neg at hi
    rw [List.drop_append_eq_append_drop, List.drop_eq_nil_of_le hi, List.nil_append] at hpre
    have h1 := List.IsPrefix.length_le hpre
    have h2 : p.dropLast.length = p.length - 1 := List.length_dropLast p
    have h3 : 0 < p.length := List.length_pos.mpr hp
    rw [List.length_drop, h2] at h1
    omega

theorem tryPattern_eq_none {p s : GoStr} (h : occursIn p s = false) :
    tryPattern p s = none := by
  have hfm : firstMatch p s = none := by
    cases hfm : firstMatch p s with
    | none => rfl
    | some i => rw [occursIn, hfm] at h; simp at h
  simp [tryPattern, hfm]

theorem occursIn_false_of_prefix {p q s : GoStr} (hpq : p <+: q)
    (h : occursIn p s = false) : occursIn q s = false := by
  rw [occursIn_eq_false_iff] at h ⊢
  intro i hq
  exact h i (hpq.trans hq)

theorem tryPattern_append (p pre body post : GoStr)
    (hno : occursIn p (pre ++ p.dropLast) = false)
    (hbody : occursIn (str "```") (body ++ str "``") = false) :
    tryPattern p (pre ++ (p ++ (body ++ (str "```" ++ post)))) = some body := by
  have h1 : firstMatch p (pre ++ (p ++ (body ++ (str "```" ++ post)))) = some pre.length :=
    firstMatch_append_pattern hno
  have hdl : (str "```").dropLast = str "``" := by decide
  have h2no : occursIn (str "```") (body ++ (str "```").dropLast) = false := by
    rw [hdl]; exact hbody
  have h2 : firstMatch (str "```") (body ++ (str "```" ++ post)) = some body.length :=
    firstMatch_append_pattern h2no
  have hrest : (pre ++ (p ++ (body ++ (str "```" ++ post)))).drop (pre.length + p.length)
      = body ++ (str "```" ++ post) := by
    rw [← List.append_assoc, ← List.length_append]
    exact List.drop_left _ _
  simp only [tryPattern, h1, hrest, h2, List.take_left]

/-- The opening pattern ``"```" ++ language ++ "\n"`` cannot overlap itself when
the language tag contains neither a backtick nor a newline, so an occurrence of
the pattern cannot begin strictly inside another occurrence. -/
theorem tagged_fence_no_self_overlap {language : GoStr}
    (hb : '`' ∉ language) (hn : '\n' ∉ language) :
    ∀ j, 0 < j → j < (str "```" ++ language ++ str "\n").length →
      ¬ (str "```" ++ language ++ str "\n").drop j <+: (str "```" ++ language ++ str "\n") := by
  intro j hj0 hjlen hpre
  have hshape : str "```" ++ language ++ str "\n"
      = '`' :: '`' :: '`' :: (language ++ ['\n']) := by
    have h1 : str "```" = ['`', '`', '`'] := rfl
    have h2 : str "\n" = ['\n'] := rfl
    rw [h1, h2, List.append_assoc]
    rfl
  have hqchar : ∀ c ∈ language ++ ['\n'], c ≠ '`' := by
    intro c hc
    rcases List.mem_append.mp hc with h | h
    · exact fun he => hb (he ▸ h)
    · simp only [List.mem_singleton] at h
      subst h
      decide
  rw [hshape] at hpre hjlen
  rcases j with _ | _ | _ | k
  · exact absurd hj0 (by omega)
  · simp only [List.drop_succ_cons, List.drop_zero] at hpre
    rw [List.cons_prefix_cons] at hpre
    rw [List.cons_prefix_cons] at hpre
    have hq := hpre.2.2
    cases hcase : language ++ ['\n'] with
    | nil => simp at hcase
    | cons c q' =>
      rw [hcase, List.cons_prefix_cons] at hq
      exact hqchar c (hcase ▸ List.mem_cons_self c q') hq.1
  · simp only [List.drop_succ_cons, List.drop_zero] at hpre
    rw [List.cons_prefix_cons] at hpre
    obtain ⟨-, hq⟩ := hpre
    cases hcase : language ++ ['\n'] with
    | nil => simp at hcase
    | cons c q' =>
      rw [hcase, List.cons_prefix_cons] at hq
      exact hqchar c (hcase ▸ List.mem_cons_self c q') hq.1
  · simp only [List.drop_succ_cons] at hpre
    simp only [List.length_cons] at hjlen
    have hk : k < (language ++ ['\n']).length := by omega
    have hne : (language ++ ['\n']).drop k ≠ [] := by
      intro hnil
      have := congrArg List.length hnil
      simp only [List.length_drop, List.length_nil] at this
      omega
    cases hcase : (language ++ ['\n']).drop k with
    | nil => exact hne hcase
    | cons c r =>
      rw [hcase, List.cons_prefix_cons] at hpre
      have hcmem : c ∈ language ++ ['\n'] :=
        List.drop_subset _ _ (hcase ▸ List.mem_cons_self c r)
      exact hqchar c hcmem hpre.1

/-- **C3.** Code extraction follows a deterministic fallback order on every
response string: a fenced block tagged with the target language wins (its
interior is returned trimmed, even with untagged fences before it and prose
after it); otherwise the first unlabelled fenced block's interior is returned
trimmed; otherwise, for an input with no triple-fence markers, the trimmed
input is returned unchanged. -/
theorem extractCode_fallback_order :
    (∀ language pre body post : GoStr, '`' ∉ language → '\n' ∉ language →
      occursIn (str "```" ++ language ++ str "\n") pre = false →
      occursIn (str "```") (body ++ str "``") = false →
      extractCodeFromResponse
        (pre ++ ((str "```" ++ language ++ str "\n") ++ (body ++ (str "```" ++ post))))
        language = trimSpace body)
    ∧ (∀ language pre body post : GoStr,
      occursIn (str "```" ++ language ++ str "\n")
        (pre ++ ((str "```" ++ str "\n") ++ (body ++ (str "```" ++ post)))) = false →
      occursIn (str "```" ++ str "\n") pre = false →
      occursIn (str "```") (body ++ str "``") = false →
      extractCodeFromResponse
        (pre ++ ((str "```" ++ str "\n") ++ (body ++ (str "```" ++ post))))
        language = trimSpace body)
    ∧ (∀ language s : GoStr, occursIn (str "```") s = false →
      extractCodeFromResponse s language = trimSpace s) := by
  refine ⟨?_, ?_, ?_⟩
  · intro language pre body post hb hn hpre hbody
    have hnso := tagged_fence_no_self_overlap hb hn
    have hno : occursIn (str "```" ++ language ++ str "\n")
        (pre ++ (str "```" ++ language ++ str "\n").dropLast) = false :=
      occursIn_append_dropLast_false hnso hpre
    have htry := tryPattern_append (str "```" ++ language ++ str "\n") pre body post hno hbody
    simp only [extractCodeFromResponse, htry]
  · intro language pre body post htag hpre hbody
    have h1 : tryPattern (str "```" ++ language ++ str "\n")
        (pre ++ ((str "```" ++ str "\n") ++ (body ++ (str "```" ++ post)))) = none :=
      tryPattern_eq_none htag
    have hnso0 : ∀ j, j < (str "```" ++ str "\n").length → 0 < j →
        ¬ (str "```" ++ str "\n").drop j <+: (str "```" ++ str "\n") := by decide
    have hnso : ∀ j, 0 < j → j < (str "```" ++ str "\n").length →
        ¬ (str "```" ++ str "\n").drop j <+: (str "```" ++ str "\n") :=
      fun j h1 h2 => hnso0 j h2 h1
    have hno : occursIn (str "```" ++ str "\n")
        (pre ++ (str "```" ++ str "\n").dropLast) = false :=
      occursIn_append_dropLast_false hnso hpre
    have htry := tryPattern_append (str "```" ++ str "\n") pre body post hno hbody
    simp only [extractCodeFromResponse, h1, htry]
  · intro language s hccc
    have hp1 : str "```" <+: str "```" ++ language ++ str "\n" :=
      (List.prefix_append _ _).trans (List.prefix_append _ _)
    have h1 : tryPattern (str "```" ++ language ++ str "\n") s = none :=
      tryPattern_eq_none ( occursIn_false_of_prefix hp1 hccc)
    have h2 : tryPattern (str "```" ++ str "\n") s = none :=
      tryPattern_eq_none ( occursIn_false_of_prefix (List.prefix_append _ _) hccc)
    simp only [extractCodeFromResponse, h1, h2]

/-- Witness for C3: the three fallback branches evaluated at concrete inputs. -/
theorem extractCode_fallback_order_witness :
    extractCodeFromResponse
        (str "Sure:\n" ++ ((str "```" ++ str "go" ++ str "\n")
          ++ (str " func TestAdd() \n" ++ (str "```" ++ str "\nmore prose"))))
        (str "go") = trimSpace (str " func TestAdd() \n")
    ∧ extractCodeFromResponse
        (str "Sure:\n" ++ ((str "```" ++ str "\n")
          ++ (str " plain code \n" ++ (str "```" ++ str " tail"))))
        (str "go") = trimSpace (str " plain code \n")
    ∧ extractCodeFromResponse (str " just code, no fences \n") (str "go")
        = trimSpace (str " just code, no fences \n") :=
  ⟨extractCode_fallback_order.1 (str "go") (str "Sure:\n") (str " func TestAdd() \n")
      (str "\nmore prose") (by decide) (by decide) (by decide) (by decide),
   extractCode_fallback_order.2.1 (str "go") (str "Sure:\n") (str " plain code \n")
      (str " tail") (by decide) (by decide) (by decide),
   extractCode_fallback_order.2.2 (str "go") (str " just code, no fences \n") (by decide)⟩

/-! ## SHA-256 (`crypto/sha256`) and `Cache.GenerateKey`

`Cache.GenerateKey` (cache.go) feeds `prompt`, `"|"`, `systemRole`, `"|"`,
`model` to a SHA-256 hasher and hex-encodes the digest.  Writing the five
parts to a hasher hashes the concatenated byte sequence, so the key is
`hex (sha256 (utf8 (prompt ++ "|" ++ systemRole ++ "|" ++ model)))`.
SHA-256 is transcribed from FIPS 180-4 (the algorithm implemented by Go's
`crypto/sha256`) over `Nat` words reduced modulo `2^32`. -/

/-- Truncation to a 32-bit word. -/
def w32 (n : Nat) : Nat := n % 4294967296

/-- 32-bit right rotation. -/
def rotr32 (n x : Nat) : Nat := w32 (x / 2 ^ n + x % 2 ^ n * 2 ^ (32 - n))

/-- 32-bit logical right shift. -/
def shr32 (n x : Nat) : Nat := x / 2 ^ n

/-- 32-bit bitwise complement. -/
def not32 (x : Nat) : Nat := x ^^^ 4294967295

/-- SHA-256 `Ch` function. -/
def shaCh (x y z : Nat) : Nat := Nat.xor (Nat.land x y) (Nat.land (not32 x) z)

/-- SHA-256 `Maj` function. -/
def shaMaj (x y z : Nat) : Nat :=
  Nat.xor (Nat.xor (Nat.land x y) (Nat.land x z)) (Nat.land y z)

/-- SHA-256 Σ₀. -/
def shaS0 (x : Nat) : Nat := rotr32 2 x ^^^ rotr32 13 x ^^^ rotr32 22 x

/-- SHA-256 Σ₁. -/
def shaS1 (x : Nat) : Nat := rotr32 6 x ^^^ rotr32 11 x ^^^ rotr32 25 x

/-- SHA-256 σ₀. -/
def shas0 (x : Nat) : Nat := rotr32 7 x ^^^ rotr32 18 x ^^^ shr32 3 x

/-- SHA-256 σ₁. -/
def shas1 (x : Nat) : Nat := rotr32 17 x ^^^ rotr32 19 x ^^^ shr32 10 x

/-- The 64 SHA-256 round constants (FIPS 180-4 §4.2.2, in decimal). -/
def shaK : List Nat :=
  [1116352408, 1899447441, 3049323471, 3921009573, 961987163, 1508970993,
   2453635748, 2870763221, 3624381080, 310598401, 607225278, 1426881987,
   1925078388, 2162078206, 2614888103, 3248222580, 3835390401, 4022224774,
   264347078, 604807628, 770255983, 1249150122, 1555081692, 1996064986,
   2554220882, 2821834349, 2952996808, 3210313671, 3336571891, 3584528711,
   113926993, 338241895, 666307205, 773529912, 1294757372, 1396182291,
   1695183700, 1986661051, 2177026350, 2456956037, 2730485921, 2820302411,
   3259730800, 3345764771, 3516065817, 3600352804, 4094571909, 275423344,
   430227734, 506948616, 659060556, 883997877, 958139571, 1322822218,
   1537002063, 1747873779, 1955562222, 2024104815, 2227730452, 2361852424,
   2428436474, 2756734187, 3204031479, 3329325298]

/-- The SHA-256 initial hash value (FIPS 180-4 §5.3.3, in decimal). -/
def shaH0 : List Nat :=
  [1779033703, 3144134277, 1013904242, 2773480762,
   1359893119, 2600822924, 528734635, 1541459225]

/-- One message-schedule extension step: append
`σ₁ w[i-2] + w[i-7] + σ₀ w[i-15] + w[i-16]` (mod 2³²). -/
def scheduleStep (ws : List Nat) : List Nat :=
  ws ++ [w32 (shas1 (ws.getD (ws.length - 2) 0) + ws.getD (ws.length - 7) 0 +
              shas0 (ws.getD (ws.length - 15) 0) + ws.getD (ws.length - 16) 0)]

/-- Iterate the schedule extension `n` times. -/
def buildSchedule (ws : List Nat) : Nat → List Nat
  | 0 => ws
  | n + 1 => buildSchedule (scheduleStep ws) n

/-- One SHA-256 compression round on the state `[a,b,c,d,e,f,g,h]`. -/
def shaRound (st : List Nat) (k w : Nat) : List Nat :=
  match st with
  | [a, b, c, d, e, f, g, h] =>
    let t1 := w32 (h + shaS1 e + shaCh e f g + k + w)
    let t2 := w32 (shaS0 a + shaMaj a b c)
    [w32 (t1 + t2), a, b, c, w32 (d + t1), e, f, g]
  | other => other

/-- Process one 512-bit block (given as 16 words) into the chaining state. -/
def shaProcessBlock (h : List Nat) (block : List Nat) : List Nat :=
  let ws := buildSchedule block 48
  let st := (ws.zip shaK).foldl (fun st p => shaRound st p.2 p.1) h
  (h.zip st).map (fun p => w32 (p.1 + p.2))

/-- A `Nat` as 8 big-endian bytes. -/
def toBE64 (n : Nat) : List Nat :=
  [n / 2 ^ 56 % 256, n / 2 ^ 48 % 256, n / 2 ^ 40 % 256, n / 2 ^ 32 % 256,
   n / 2 ^ 24 % 256, n / 2 ^ 16 % 256, n / 2 ^ 8 % 256, n % 256]

/-- A 32-bit word as 4 big-endian bytes. -/
def toBE32 (n : Nat) : List Nat :=
  [n / 2 ^ 24 % 256, n / 2 ^ 16 % 256, n / 2 ^ 8 % 256, n % 256]

/-- SHA-256 padding: `0x80`, zeros to 56 mod 64, and the 64-bit bit length. -/
def shaPad (msg : List Nat) : List Nat :=
  msg ++ [128] ++ List.replicate ((64 - (msg.length + 9) % 64) % 64) 0
      ++ toBE64 (msg.length * 8)

/-- 4 big-endian bytes at a time into 32-bit words. -/
def toWords : List Nat → List Nat
  | b0 :: b1 :: b2 :: b3 :: rest =>
    (b0 * 2 ^ 24 + b1 * 2 ^ 16 + b2 * 2 ^ 8 + b3) :: toWords rest
  | _ => []

/-- Split a byte list into 64-byte chunks. -/
def chunks64 (l : List Nat) : List (List Nat) :=
  if h : l = [] then []
  else l.take 64 :: chunks64 (l.drop 64)
termination_by l.length
decreasing_by
  simp only [List.length_drop]
  have : 0 < l.length := List.length_pos.mpr h
  omega

/-- The SHA-256 digest (32 bytes) of a byte sequence. -/
def sha256 (msg : List Nat) : List Nat :=
  let final := (chunks64 (shaPad msg)).foldl (fun h b => shaProcessBlock h (toWords b)) shaH0
  final.foldr (fun wrd acc => toBE32 wrd ++ acc) []

/-- A nibble as a lowercase hex character (`encoding/hex`). -/
def hexDigit (n : Nat) : Char :=
  if n < 10 then Char.ofNat (48 + n) else Char.ofNat (87 + n)

/-- Lowercase hex encoding of a byte list (`hex.EncodeToString`). -/
def hexEncode (bs : List Nat) : GoStr :=
  bs.foldr (fun b acc => hexDigit (b / 16) :: hexDigit (b % 16) :: acc) []

/-- UTF-8 encoding of one character (Go strings are UTF-8 byte sequences). -/
def utf8EncodeChar (c : Char) : List Nat :=
  let n := c.toNat
  if n < 128 then [n]
  else if n < 2048 then [192 + n / 64, 128 + n % 64]
  else if n < 65536 then [224 + n / 4096, 128 + n / 64 % 64, 128 + n % 64]
  else [240 + n / 262144, 128 + n / 4096 % 64, 128 + n / 64 % 64, 128 + n % 64]

/-- UTF-8 encoding of a string. -/
def utf8Encode : GoStr → List Nat
  | [] => []
  | c :: cs => utf8EncodeChar c ++ utf8Encode cs

/-- The byte string hashed by `Cache.GenerateKey`: the three fields joined by
the `"|"` separator, in the order the Go code writes them to the hasher. -/
def keyInput (prompt systemRole model : GoStr) : GoStr :=
  prompt ++ str "|" ++ systemRole ++ str "|" ++ model

/-- `Cache.GenerateKey` (cache.go): the hex-encoded SHA-256 digest of
`prompt | systemRole | model`. -/
def GenerateKey (prompt systemRole model : GoStr) : GoStr :=
  hexEncode (sha256 (utf8Encode (keyInput prompt systemRole model)))

theorem utf8Encode_append (a b : GoStr) :
    utf8Encode (a ++ b) = utf8Encode a ++ utf8Encode b := by
  induction a with
  | nil => simp [utf8Encode]
  | cons c cs ih => simp [utf8Encode, ih]

/-- Equal hash inputs give equal keys. -/
theorem generateKey_congr {p1 s1 m1 p2 s2 m2 : GoStr}
    (h : keyInput p1 s1 m1 = keyInput p2 s2 m2) :
    GenerateKey p1 s1 m1 = GenerateKey p2 s2 m2 := by
  unfold GenerateKey
  rw [h]

/-- Splitting at a separator character is unambiguous when the parts left of
the separator do not contain it. -/
theorem append_sep_inj {a1 b1 a2 b2 : GoStr} (h1 : '|' ∉ a1) (h2 : '|' ∉ a2)
    (h : a1 ++ '|' :: b1 = a2 ++ '|' :: b2) : a1 = a2 ∧ b1 = b2 := by
  induction a1 generalizing a2 with
  | nil =>
    cases a2 with
    | nil => simpa using h
    | cons d a2' =>
      simp only [List.nil_append, List.cons_append, List.cons.injEq] at h
      exact absurd (h.1 ▸ List.mem_cons_self d a2') h2
  | cons c a1' ih =>
    cases a2 with
    | nil =>
      simp only [List.cons_append, List.nil_append, List.cons.injEq] at h
      exact absurd (h.1 ▸ List.mem_cons_self c a1') h1
    | cons d a2' =>
      simp only [List.cons_append, List.cons.injEq] at h
      obtain ⟨hcd, htail⟩ := h
      have h1' : '|' ∉ a1' := fun hm => h1 (List.mem_cons_of_mem _ hm)
      have h2' : '|' ∉ a2' := fun hm => h2 (List.mem_cons_of_mem _ hm)
      obtain ⟨he, hb⟩ := ih h1' h2' htail
      exact ⟨by rw [hcd, he], hb⟩

/-- **C2 (counterexample).** Two input triples that differ in the prompt and
the system-role fields produce the *same* key: the separator `"|"` *can* be
produced by legitimate field values, so `("a|b", "c", "m")` and
`("a", "b|c", "m")` hash the same byte string `"a|b|c|m"`. -/
theorem generateKey_not_injective_counterexample :
    GenerateKey (str "a|b") (str "c") (str "m")
      = GenerateKey (str "a") (str "b|c") (str "m")
    ∧ str "a|b" ≠ str "a" ∧ str "c" ≠ str "b|c" :=
  ⟨generateKey_congr (by decide), by decide, by decide⟩

/-- **C2 (amended).** `GenerateKey` is a pure deterministic function; however
the `"|"` separator joining the three fields *can* occur in legitimate field
values, so distinct triples can collide (see the counterexample).  Injectivity
of the hashed byte string holds exactly on triples whose fields are
separator-free: for `"|"`-free fields, equal hash inputs force equal fields. -/
theorem generateKey_deterministic_and_injective_on_separator_free :
    (∀ p s m : GoStr, GenerateKey p s m = GenerateKey p s m)
    ∧ (∀ p1 s1 m1 p2 s2 m2 : GoStr,
        '|' ∉ p1 → '|' ∉ s1 → '|' ∉ m1 → '|' ∉ p2 → '|' ∉ s2 → '|' ∉ m2 →
        keyInput p1 s1 m1 = keyInput p2 s2 m2 →
        p1 = p2 ∧ s1 = s2 ∧ m1 = m2) := by
  refine ⟨fun p s m => rfl, ?_⟩
  intro p1 s1 m1 p2 s2 m2 hp1 hs1 hm1 hp2 hs2 hm2 h
  have hsep : str "|" = ['|'] := rfl
  have hshape : ∀ p s m : GoStr, keyInput p s m = p ++ '|' :: (s ++ '|' :: m) := by
    intro p s m
    simp [keyInput, hsep, List.append_assoc]
  rw [hshape, hshape] at h
  obtain ⟨hpp, hrest⟩ := append_sep_inj hp1 hp2 h
  obtain ⟨hss, hmm⟩ := append_sep_inj hs1 hs2 hrest
  exact ⟨hpp, hss, hmm⟩

/-- Witness for the amended C2: both conjuncts applied at concrete inputs. -/
theorem generateKey_deterministic_witness :
    GenerateKey (str "p") (str "s") (str "openai")
      = GenerateKey (str "p") (str "s") (str "openai")
    ∧ (str "p" = str "p" ∧ str "s" = str "s" ∧ str "openai" = str "openai") :=
  ⟨generateKey_deterministic_and_injective_on_separator_free.1
      (str "p") (str "s") (str "openai"),
   generateKey_deterministic_and_injective_on_separator_free.2
      (str "p") (str "s") (str "openai") (str "p") (str "s") (str "openai")
      (by decide) (by decide) (by decide) (by decide) (by decide) (by decide) rfl⟩

/-! ## The Engine's cache key (engine.go)

`generateTestForDefinition` renders
`prompt := fmt.Sprintf(adapter.GetPromptTemplate(testType), def.Body, packageName)`
and builds the cache key as `e.cache.GenerateKey(prompt, "", e.provider.Name())`:
the system-role slot of the key is the *empty string* (not the request's actual
system role) and the third slot is the backend name returned by
`Provider.Name()` (`"anthropic"`, `"openai"`, `"gemini"`, or `"groq"`).

Every adapter's `GetPromptTemplate` returns a base prompt of the shape
`pre ++ "%s" ++ mid ++ "%s" ++ "\n"` followed by a per-test-type suffix with
no format verbs, so the rendered prompt is
`pre ++ body ++ mid ++ packageName ++ "\n" ++ suffix`.  The suffix is
universally quantified below, which subsumes the concrete per-test-type
suffixes of every adapter. -/

/-- `GetLanguage` values of the adapters installed by `DefaultRegistry`
(registry.go): go, python, javascript (also used for typescript), rust. -/
def registeredLanguages : List GoStr :=
  [str "go", str "python", str "javascript", str "rust"]

/-- The part of each adapter's base prompt before the first `%s` verb
(`GetPromptTemplate` in golang.go and the python/javascript/rust adapters). -/
def promptPre (language : GoStr) : GoStr :=
  if language = str "go" then
    str "Generate idiomatic Go tests for the following function.\n\nRequirements:\n- Use Go\x27s testing package\n- Use testify/assert for assertions\n- Follow table-driven test pattern with t.Run() for subtests\n- Include meaningful test case names\n- Cover happy path, edge cases, and error conditions\n- Use t.Helper() for helper functions\n- Handle errors explicitly\n\nFunction to test:\n"
  else if language = str "python" then
    str "Generate idiomatic Python tests using pytest for the following function.\n\nRequirements:\n- Use pytest conventions and fixtures\n- Use descriptive test function names (test_<scenario>)\n- Include docstrings for test functions\n- Use assert statements (pytest style)\n- Handle exceptions with pytest.raises\n- Use @pytest.mark.parametrize for multiple test cases\n\nFunction to test:\n"
  else if language = str "javascript" then
    str "Generate idiomatic JavaScript/TypeScript tests using Jest for the following function.\n\nRequirements:\n- Use describe/it blocks for test organization\n- Use expect() assertions\n- Include meaningful test descriptions\n- Handle async functions with async/await\n- Use jest.mock() for mocking dependencies\n- Use it.each() for parameterized tests\n\nFunction to test:\n"
  else if language = str "rust" then
    str "Generate idiomatic Rust tests for the following function.\n\nRequirements:\n- Use #[cfg(test)] mod tests block\n- Use #[test] attribute for test functions\n- Use assert!, assert_eq!, assert_ne! macros\n- Handle Result<T, E> types properly\n- Use #[should_panic] for panic tests\n- Follow Rust naming conventions (snake_case)\n\nFunction to test:\n"
  else []

/-- The part of each adapter's base prompt between the two `%s` verbs
(`"\n\nPackage: "` for Go, `"\n\nModule: "` for the other adapters). -/
def promptMid (language : GoStr) : GoStr :=
  if language = str "go" then str "\n\nPackage: " else str "\n\nModule: "

/-- The prompt the Engine renders for one definition × test type:
`fmt.Sprintf(template, def.Body, packageName)` with
`template = pre ++ "%s" ++ mid ++ "%s" ++ "\n" ++ extra`. -/
def renderedPrompt (language body pkg extra : GoStr) : GoStr :=
  promptPre language ++ body ++ promptMid language ++ pkg ++ str "\n" ++ extra

/-- The system role the Engine sends with each request (engine.go):
`"You are an expert %s developer. ..."` instantiated with
`adapter.GetLanguage()`. -/
def engineSystemRole (language : GoStr) : GoStr :=
  str "You are an expert " ++ language ++
    str " developer. Generate production-quality tests that follow best practices. Output only the test code, no explanations."

/-- The byte string hashed for the Engine's cache key (engine.go):
`GenerateKey(prompt, "", providerName)`. -/
def engineKeyInput (providerName prompt : GoStr) : GoStr :=
  keyInput prompt [] providerName

theorem renderedPrompt_eq (l b p e : GoStr) :
    renderedPrompt l b p e
      = promptPre l ++ (b ++ (promptMid l ++ (p ++ (str "\n" ++ e)))) := by
  simp [renderedPrompt, List.append_assoc]

/-- Two appends with long differing prefixes are different. -/
theorem append_ne_of_take20_ne {a b : GoStr} (r1 r2 : GoStr)
    (ha : 20 ≤ a.length) (hb : 20 ≤ b.length) (hne : a.take 20 ≠ b.take 20) :
    a ++ r1 ≠ b ++ r2 := by
  intro h
  apply hne
  have h1 : (a ++ r1).take 20 = a.take 20 := List.take_append_of_le_length ha
  have h2 : (b ++ r2).take 20 = b.take 20 := List.take_append_of_le_length hb
  rw [← h1, ← h2, h]

set_option maxRecDepth 8192 in
/-- **C1.** Within one Engine (one provider, hence one backend name and one
configured model), two definition × test-type requests whose cache keys have
the same hash input are semantically identical: they carry the same rendered
prompt and — because the prompt's leading text determines the adapter's
language, and the system role is a function of that language — the same system
role; their backend and model coincide because both requests use the engine's
single provider.  Key equality is stated on the hashed byte string
`prompt ++ "|" ++ "" ++ "|" ++ providerName`, the only way the deterministic
construction produces equal keys short of a SHA-256 collision; equal inputs
give equal keys (`generateKey_congr`), restated in the last conjunct. -/
theorem engine_cache_key_semantic_identity
    (providerName l1 l2 b1 p1 e1 b2 p2 e2 : GoStr)
    (h1 : l1 ∈ registeredLanguages) (h2 : l2 ∈ registeredLanguages)
    (hk : engineKeyInput providerName (renderedPrompt l1 b1 p1 e1)
        = engineKeyInput providerName (renderedPrompt l2 b2 p2 e2)) :
    renderedPrompt l1 b1 p1 e1 = renderedPrompt l2 b2 p2 e2
    ∧ engineSystemRole l1 = engineSystemRole l2
    ∧ GenerateKey (renderedPrompt l1 b1 p1 e1) [] providerName
        = GenerateKey (renderedPrompt l2 b2 p2 e2) [] providerName := by
  have hsep : str "|" = ['|'] := rfl
  have hk' : keyInput (renderedPrompt l1 b1 p1 e1) [] providerName
      = keyInput (renderedPrompt l2 b2 p2 e2) [] providerName := hk
  have hprompt : renderedPrompt l1 b1 p1 e1 = renderedPrompt l2 b2 p2 e2 := by
    simp only [keyInput, hsep, List.append_nil, List.append_assoc,
      List.singleton_append] at hk'
    exact List.append_cancel_right hk'
  have hl : l1 = l2 := by
    simp only [registeredLanguages, List.mem_cons, List.not_mem_nil, or_false] at h1 h2
    rw [renderedPrompt_eq, renderedPrompt_eq] at hprompt
    rcases h1 with rfl | rfl | rfl | rfl <;> rcases h2 with rfl | rfl | rfl | rfl <;>
      first
      | rfl
      | exact absurd hprompt
          (append_ne_of_take20_ne _ _ (by decide) (by decide) (by decide))
  exact ⟨hprompt, by rw [hl], generateKey_congr hk'⟩

/-- Witness for C1 at a concrete pair of identical requests. -/
theorem engine_cache_key_semantic_identity_witness :
    renderedPrompt (str "go") (str "func Add") (str "mypkg") []
      = renderedPrompt (str "go") (str "func Add") (str "mypkg") []
    ∧ engineSystemRole (str "go") = engineSystemRole (str "go")
    ∧ GenerateKey (renderedPrompt (str "go") (str "func Add") (str "mypkg") []) []
          (str "openai")
        = GenerateKey (renderedPrompt (str "go") (str "func Add") (str "mypkg") []) []
          (str "openai") :=
  engine_cache_key_semantic_identity (str "openai") (str "go") (str "go")
    (str "func Add") (str "mypkg") [] (str "func Add") (str "mypkg") []
    (by decide) (by decide) rfl

/-! ## Rate limiter (ratelimit.go)

`RateLimiter` keeps permits in a buffered channel of capacity
`requestsPerMinute` (defaulted to 60 when the argument is non-positive),
fills it completely at construction, and starts a refill goroutine that
ticks every `time.Minute / requestsPerMinute`, adding one permit per tick
when the channel is not full.  `Wait` removes one permit or fails with the
context's error.  The channel operations are atomic, so every concurrent
execution is an interleaving of three atomic events: a successful `Wait`
(receive), a refill tick (non-blocking send), and a cancelled `Wait`
(no state change).  The model below is a step relation over such traces:
a successful `Wait` is only enabled when the channel holds a permit. -/

structure RateLimiter where
  requestsPerMinute : Nat
  /-- Number of permits currently buffered in the `tokens` channel. -/
  tokens : Nat
  /-- Capacity of the `tokens` channel. -/
  capacity : Nat

/-- `NewRateLimiter` (ratelimit.go): default non-positive rates to 60, create
the channel with capacity `requestsPerMinute` and fill it. -/
def NewRateLimiter (requestsPerMinute : Int) : RateLimiter :=
  let rpm : Nat := if requestsPerMinute ≤ 0 then 60 else requestsPerMinute.toNat
  { requestsPerMinute := rpm, tokens := rpm, capacity := rpm }

/-- The refill period started by `refillLoop`:
`time.Minute / time.Duration(requestsPerMinute)` in nanoseconds. -/
def refillIntervalNs (rl : RateLimiter) : Nat :=
  60000000000 / rl.requestsPerMinute

/-- Atomic rate-limiter events: a successful `Wait` (channel receive), one
tick of `refillLoop` (non-blocking send, dropped when full), and a `Wait`
returning the context's cancellation error (no channel operation). -/
inductive RLEvent
  | waitSuccess
  | refillTick
  | waitCancelled
deriving DecidableEq

/-- One atomic step; `none` when the event is not enabled (a receive from an
empty channel blocks, so a successful `Wait` cannot happen then). -/
def rlStep (rl : RateLimiter) : RLEvent → Option RateLimiter
  | .waitSuccess =>
    if rl.tokens = 0 then none else some { rl with tokens := rl.tokens - 1 }
  | .refillTick => some { rl with tokens := min (rl.tokens + 1) rl.capacity }
  | .waitCancelled => some rl

/-- Run a trace of events; `none` when some step is not enabled. -/
def rlRun (rl : RateLimiter) : List RLEvent → Option RateLimiter
  | [] => some rl
  | e :: es =>
    match rlStep rl e with
    | none => none
    | some rl' => rlRun rl' es

/-- Number of successful `Wait`s in a trace. -/
def countWaits (tr : List RLEvent) : Nat :=
  tr.countP (fun e => e = RLEvent.waitSuccess)

/-- Number of refill ticks in a trace. -/
def countTicks (tr : List RLEvent) : Nat :=
  tr.countP (fun e => e = RLEvent.refillTick)

theorem rlRun_wait_bound {rl rl' : RateLimiter} {tr : List RLEvent}
    (h : rlRun rl tr = some rl') :
    rl'.tokens + countWaits tr ≤ rl.tokens + countTicks tr := by
  induction tr generalizing rl with
  | nil =>
    simp only [rlRun, Option.some.injEq] at h
    simp [← h, countWaits, countTicks]
  | cons e es ih =>
    simp only [rlRun] at h
    cases e with
    | waitSuccess =>
      simp only [rlStep] at h
      by_cases h0 : rl.tokens = 0
      · simp [h0] at h
      · simp only [h0, if_false] at h
        have hih := ih h
        simp only [countWaits, countTicks] at hih ⊢
        simp [List.countP_cons]
        omega
    | refillTick =>
      simp only [rlStep] at h
      have hih := ih h
      simp only [countWaits, countTicks] at hih ⊢
      simp [List.countP_cons]
      have hmin : min (rl.tokens + 1) rl.capacity ≤ rl.tokens + 1 := Nat.min_le_left _ _
      omega
    | waitCancelled =>
      simp only [rlStep] at h
      have hih := ih h
      simp only [countWaits, countTicks] at hih ⊢
      simp [List.countP_cons]
      omega

/-- **C4.** The rate limiter is a token bucket: for a configured positive rate
`N` the bucket's capacity and initial fill are `N` and the refill period is
`60s/N`; along every admissible trace the number of successful `Wait`s never
exceeds `N` plus the number of refill ticks (regardless of how many workers
interleave); with no tick, at most `N` `Wait`s succeed, and once `N` have
succeeded a further successful `Wait` step is disabled — the `(N+1)`-th
`Wait` can only complete after a refill tick, or fail with the context's
cancellation error. -/
theorem rateLimiter_token_bucket (n : Int) (hn : 0 < n) :
    (NewRateLimiter n).capacity = n.toNat
    ∧ (NewRateLimiter n).tokens = n.toNat
    ∧ refillIntervalNs (NewRateLimiter n) = 60000000000 / n.toNat
    ∧ (∀ tr rl', rlRun (NewRateLimiter n) tr = some rl' →
        countWaits tr ≤ n.toNat + countTicks tr)
    ∧ (∀ tr rl', rlRun (NewRateLimiter n) tr = some rl' →
        countTicks tr = 0 → countWaits tr = n.toNat →
        rlStep rl' RLEvent.waitSuccess = none) := by
  have hpos : ¬ n ≤ 0 := by omega
  refine ⟨by simp [NewRateLimiter, hpos], by simp [NewRateLimiter, hpos],
    by simp [NewRateLimiter, refillIntervalNs, hpos], ?_, ?_⟩
  · intro tr rl' h
    have := rlRun_wait_bound h
    have hrl : (NewRateLimiter n).tokens = n.toNat := by simp [NewRateLimiter, hpos]
    omega
  · intro tr rl' h htick hwait
    have := rlRun_wait_bound h
    have hrl : (NewRateLimiter n).tokens = n.toNat := by simp [NewRateLimiter, hpos]
    have hz : rl'.tokens = 0 := by omega
    simp [rlStep, hz]

/-- Witness for C4: rate 2, trace `Wait, Wait` exhausts the bucket. -/
theorem rateLimiter_token_bucket_witness :
    (NewRateLimiter 2).capacity = (2 : Int).toNat
    ∧ (NewRateLimiter 2).tokens = (2 : Int).toNat
    ∧ refillIntervalNs (NewRateLimiter 2) = 60000000000 / (2 : Int).toNat
    ∧ (∀ tr rl', rlRun (NewRateLimiter 2) tr = some rl' →
        countWaits tr ≤ (2 : Int).toNat + countTicks tr)
    ∧ (∀ tr rl', rlRun (NewRateLimiter 2) tr = some rl' →
        countTicks tr = 0 → countWaits tr = (2 : Int).toNat →
        rlStep rl' RLEvent.waitSuccess = none) :=
  rateLimiter_token_bucket 2 (by decide)

/-! ## Response cache (cache.go)

`Cache` stores `*CompletionResponse` pointers in a Go map keyed by the hex
key, with `maxSize` (defaulted to 10000 when non-positive), hit/miss
counters and a reader/writer lock.  To express the pointer semantics that
claim C7 is about (`Get` clones the stored response and returns a pointer
to the fresh copy), responses live in an explicit heap: a `Cache` entry is
a heap address, `Set` stores the caller's pointer, and `Get` allocates a
fresh cell holding the copy with `Cached := true`.  Mutating "a response
returned by `Get`" is writing an arbitrary value to the returned address.
The Go map's iteration order is unspecified, so `Set`'s eviction removes an
arbitrary entry; the model evicts the oldest binding (one admissible
choice — the size bound proved for C8 holds for any choice). -/

/-- `CompletionResponse` (provider.go); `TokensInput`/`TokensOutput` are Go
ints. -/
structure CompletionResponse where
  Content : GoStr := []
  TokensInput : Int := 0
  TokensOutput : Int := 0
  Cached : Bool := false
  Model : GoStr := []
  FinishReason : GoStr := []
deriving DecidableEq

/-- A heap of `CompletionResponse` cells; `next` is the next fresh address. -/
structure Heap where
  next : Nat
  mem : Nat → CompletionResponse

/-- Overwrite the cell at address `p` (a mutation through a pointer). -/
def heapWrite (h : Heap) (p : Nat) (v : CompletionResponse) : Heap :=
  { next := h.next, mem := fun q => if q = p then v else h.mem q }

/-- Allocate a fresh cell holding `v`; returns its address. -/
def heapAlloc (h : Heap) (v : CompletionResponse) : Nat × Heap :=
  (h.next, { next := h.next + 1, mem := fun q => if q = h.next then v else h.mem q })

/-- The cache: map from keys to response pointers, capacity, counters. -/
structure Cache where
  entries : List (GoStr × Nat)
  maxSize : Nat
  hits : Nat
  misses : Nat

/-- `NewCache` (cache.go): non-positive sizes default to 10000. -/
def NewCache (maxSize : Int) : Cache :=
  { entries := [], maxSize := if maxSize ≤ 0 then 10000 else maxSize.toNat,
    hits := 0, misses := 0 }

/-- Go map lookup on the association list (keys are unique). -/
def mapGet (k : GoStr) : List (GoStr × Nat) → Option Nat
  | [] => none
  | (k', v) :: rest => if k' = k then some v else mapGet k rest

/-- Remove the binding of `k`, if any. -/
def mapErase (k : GoStr) : List (GoStr × Nat) → List (GoStr × Nat)
  | [] => []
  | (k', v) :: rest => if k' = k then mapErase k rest else (k', v) :: mapErase k rest

/-- Go map assignment `m[k] = v`. -/
def mapAssign (k : GoStr) (v : Nat) (m : List (GoStr × Nat)) : List (GoStr × Nat) :=
  (k, v) :: mapErase k m

/-- `Cache.Get` (cache.go): on a hit, bump the hit counter and return a
pointer to a *fresh copy* of the stored response with `Cached := true`
(`respCopy := *entry.response; respCopy.Cached = true; return &respCopy`);
on a miss, bump the miss counter. -/
def cacheGet (c : Cache) (h : Heap) (key : GoStr) : Option Nat × Cache × Heap :=
  match mapGet key c.entries with
  | some p =>
    let copy := { h.mem p with Cached := true }
    let alloc := heapAlloc h copy
    (some alloc.1, { c with hits := c.hits + 1 }, alloc.2)
  | none => (none, { c with misses := c.misses + 1 }, h)

/-- `Cache.Set` (cache.go): when the map has reached `maxSize`, delete one
arbitrary entry (the first key the map iteration yields), then store the
caller's response pointer under `key`. -/
def cacheSet (c : Cache) (key : GoStr) (p : Nat) : Cache :=
  let m1 := if c.maxSize ≤ c.entries.length then c.entries.tail else c.entries
  { c with entries := mapAssign key p m1 }

/-- `Cache.Clear` (cache.go). -/
def cacheClear (c : Cache) : Cache :=
  { c with entries := [], hits := 0, misses := 0 }

/-- A client-visible cache operation. -/
inductive CacheOp
  | get (key : GoStr)
  | set (key : GoStr) (p : Nat)
  | clear

/-- Apply one operation to the cache (and heap). -/
def cacheApply (ch : Cache × Heap) : CacheOp → Cache × Heap
  | .get k =>
    let r := cacheGet ch.1 ch.2 k
    (r.2.1, r.2.2)
  | .set k p => (cacheSet ch.1 k p, ch.2)
  | .clear => (cacheClear ch.1, ch.2)

/-- Run a sequence of cache operations. -/
def cacheRun (ch : Cache × Heap) (ops : List CacheOp) : Cache × Heap :=
  ops.foldl cacheApply ch

theorem mapErase_length_le (k : GoStr) (m : List (GoStr × Nat)) :
    (mapErase k m).length ≤ m.length := by
  induction m with
  | nil => simp [mapErase]
  | cons kv rest ih =>
    obtain ⟨k', v⟩ := kv
    by_cases hk : k' = k <;> simp [mapErase, hk] <;> omega

theorem cacheSet_size_le {c : Cache} (hmax : 1 ≤ c.maxSize)
    (hle : c.entries.length ≤ c.maxSize) (key : GoStr) (p : Nat) :
    (cacheSet c key p).entries.length ≤ c.maxSize := by
  unfold cacheSet mapAssign
  by_cases hcap : c.maxSize ≤ c.entries.length
  · simp only [hcap, if_true, List.length_cons]
    have h1 := mapErase_length_le key c.entries.tail
    have h2 : c.entries.tail.length = c.entries.length - 1 := List.length_tail _
    omega
  · simp only [hcap, if_false, List.length_cons]
    have h1 := mapErase_length_le key c.entries
    omega

theorem newCache_maxSize_pos (n : Int) : 1 ≤ (NewCache n).maxSize := by
  unfold NewCache
  by_cases hn : n ≤ 0
  · simp [hn]
  · simp only [hn, if_false]
    omega

/-- **C8.** Starting from an empty cache, after any sequence of
`Get`/`Set`/`Clear` operations the number of stored entries never exceeds the
configured capacity: `Set` on a full cache evicts one arbitrary entry before
inserting. -/
theorem cache_size_bounded (n : Int) (h0 : Heap) (ops : List CacheOp) :
    (cacheRun (NewCache n, h0) ops).1.entries.length ≤ (NewCache n).maxSize := by
  suffices hsuf : ∀ (c : Cache) (h : Heap),
      c.maxSize = (NewCache n).maxSize → c.entries.length ≤ (NewCache n).maxSize →
      (cacheRun (c, h) ops).1.entries.length ≤ (NewCache n).maxSize by
    exact hsuf (NewCache n) h0 rfl (by simp [NewCache])
  induction ops with
  | nil => intro c h _ hle; exact hle
  | cons op rest ih =>
    intro c h hm hle
    cases op with
    | get k =>
      simp only [cacheRun, List.foldl_cons, cacheApply]
      have hkeep : (cacheGet c h k).2.1.entries = c.entries ∧
          (cacheGet c h k).2.1.maxSize = c.maxSize := by
        unfold cacheGet
        cases mapGet k c.entries <;> simp
      exact ih _ _ (hkeep.2.trans hm) (hkeep.1 ▸ hle)
    | set k p =>
      simp only [cacheRun, List.foldl_cons, cacheApply]
      have hmax : 1 ≤ c.maxSize := by rw [hm]; exact newCache_maxSize_pos n
      have hle' : c.entries.length ≤ c.maxSize := by rw [hm]; exact hle
      have hset := cacheSet_size_le hmax hle' k p
      have hms : (cacheSet c k p).maxSize = c.maxSize := by unfold cacheSet; rfl
      exact ih _ _ (hms.trans hm) (by rw [← hm]; exact hset)
    | clear =>
      simp only [cacheRun, List.foldl_cons, cacheApply]
      have : (cacheClear c).maxSize = c.maxSize := rfl
      exact ih _ _ (this.trans hm) (by simp [cacheClear])

/-- Stored pointers are below the heap's allocation frontier. -/
def CacheHeapWF (c : Cache) (h : Heap) : Prop :=
  ∀ kp ∈ c.entries, kp.2 < h.next

theorem mapGet_mem {k : GoStr} {m : List (GoStr × Nat)} {p : Nat}
    (h : mapGet k m = some p) : (k, p) ∈ m := by
  induction m with
  | nil => simp [mapGet] at h
  | cons kv rest ih =>
    obtain ⟨k', v⟩ := kv
    by_cases hk : k' = k
    · simp only [mapGet, hk, if_true, Option.some.injEq] at h
      subst hk
      subst h
      exact List.mem_cons_self _ _
    · simp only [mapGet, hk, if_false] at h
      exact List.mem_cons_of_mem _ (ih h)

/-- **C7.** `Cache.Get` returns a pointer to an independent copy of the stored
response with `Cached := true` set on the copy only: the store (entries and
the stored response cell) is unchanged, and after overwriting the returned
copy with an arbitrary mutated value, a second `Get` with the same key still
returns the original content (with the `Cached` flag). -/
theorem cacheGet_copy_safe (c : Cache) (h : Heap) (key : GoStr) (p : Nat)
    (hwf : CacheHeapWF c h) (hfind : mapGet key c.entries = some p) :
    (cacheGet c h key).1 = some h.next
    ∧ (cacheGet c h key).2.2.mem h.next = { h.mem p with Cached := true }
    ∧ (cacheGet c h key).2.1.entries = c.entries
    ∧ (cacheGet c h key).2.2.mem p = h.mem p
    ∧ ∀ mutated : CompletionResponse,
        (cacheGet (cacheGet c h key).2.1
            (heapWrite (cacheGet c h key).2.2 h.next mutated) key).1
          = some (heapWrite (cacheGet c h key).2.2 h.next mutated).next
        ∧ (cacheGet (cacheGet c h key).2.1
              (heapWrite (cacheGet c h key).2.2 h.next mutated) key).2.2.mem
            (heapWrite (cacheGet c h key).2.2 h.next mutated).next
          = { h.mem p with Cached := true } := by
  have hep : p < h.next := hwf (key, p) (mapGet_mem hfind)
  have hpn : p ≠ h.next := Nat.ne_of_lt hep
  refine ⟨?_, ?_, ?_, ?_, ?_⟩
  · simp [cacheGet, heapAlloc, hfind]
  · simp [cacheGet, heapAlloc, hfind]
  · simp [cacheGet, heapAlloc, hfind]
  · simp [cacheGet, heapAlloc, hfind, hpn]
  · intro mutated
    constructor
    · simp [cacheGet, heapAlloc, heapWrite, hfind]
    · simp [cacheGet, heapAlloc, heapWrite, hfind, hpn]

/-- Witness for C7: one stored entry at address 0, heap frontier 1. -/
theorem cacheGet_copy_safe_witness :
    (cacheGet ⟨[(str "k", 0)], 10, 0, 0⟩ ⟨1, fun _ => {}⟩ (str "k")).1 = some 1
    ∧ (cacheGet ⟨[(str "k", 0)], 10, 0, 0⟩ ⟨1, fun _ => {}⟩ (str "k")).2.2.mem 1
        = { ({} : CompletionResponse) with Cached := true }
    ∧ (cacheGet ⟨[(str "k", 0)], 10, 0, 0⟩ ⟨1, fun _ => {}⟩ (str "k")).2.1.entries
        = [(str "k", 0)]
    ∧ (cacheGet ⟨[(str "k", 0)], 10, 0, 0⟩ ⟨1, fun _ => {}⟩ (str "k")).2.2.mem 0
        = ({} : CompletionResponse)
    ∧ ∀ mutated : CompletionResponse,
        (cacheGet (cacheGet ⟨[(str "k", 0)], 10, 0, 0⟩ ⟨1, fun _ => {}⟩ (str "k")).2.1
            (heapWrite
              (cacheGet ⟨[(str "k", 0)], 10, 0, 0⟩ ⟨1, fun _ => {}⟩ (str "k")).2.2
              1 mutated) (str "k")).1
          = some (heapWrite
              (cacheGet ⟨[(str "k", 0)], 10, 0, 0⟩ ⟨1, fun _ => {}⟩ (str "k")).2.2
              1 mutated).next
        ∧ (cacheGet (cacheGet ⟨[(str "k", 0)], 10, 0, 0⟩ ⟨1, fun _ => {}⟩ (str "k")).2.1
              (heapWrite
                (cacheGet ⟨[(str "k", 0)], 10, 0, 0⟩ ⟨1, fun _ => {}⟩ (str "k")).2.2
                1 mutated) (str "k")).2.2.mem
            (heapWrite
              (cacheGet ⟨[(str "k", 0)], 10, 0, 0⟩ ⟨1, fun _ => {}⟩ (str "k")).2.2
              1 mutated).next
          = { ({} : CompletionResponse) with Cached := true } :=
  cacheGet_copy_safe ⟨[(str "k", 0)], 10, 0, 0⟩ ⟨1, fun _ => {}⟩ (str "k") 0
    (by intro kp hkp; simp at hkp; simp [hkp]) rfl

/-! ## Batcher (ratelimit.go)

`Batcher` accumulates `CompletionRequest`s in `pending`; `Add` appends under
the mutex and, when the pending count has reached `batchSize`, calls
`Flush(context.Background())` *discarding* its return values; `Flush` swaps
the pending slice out and sends it through `Provider.BatchComplete`,
returning `(nil, nil)` when nothing was queued.  The stored `flushTimeout`
field is never read by any operation — there is no time-based flush.  The
provider is modelled as a function from the request batch to the responses
and optional error; each operation also returns the list of
`BatchComplete` call arguments it issued, so that "a provider call
happened" is observable in the model. -/

/-- `CompletionRequest` (provider.go).  `Temperature` (a float32) and `Seed`
(a pointer used only for reproducibility) are not read by any code under
verification and are omitted. -/
structure CompletionRequest where
  Prompt : GoStr := []
  SystemRole : GoStr := []
  MaxTokens : Int := 0
deriving DecidableEq

/-- `Provider.BatchComplete`, as a function of the request batch. -/
abbrev BatchProvider := List CompletionRequest → List CompletionResponse × Option GoStr

/-- `Batcher` state (the provider and mutex are implicit; `results` is an
internal channel no operation reads). -/
structure BatcherState where
  batchSize : Nat
  /-- Stored but never used by `Add`/`Flush` (no time-based flush exists). -/
  flushTimeoutNs : Nat
  pending : List CompletionRequest
deriving DecidableEq

/-- `NewBatcher` (ratelimit.go): non-positive sizes default to 5, non-positive
timeouts to 2s. -/
def NewBatcher (batchSize flushTimeoutNs : Int) : BatcherState :=
  { batchSize := if batchSize ≤ 0 then 5 else batchSize.toNat,
    flushTimeoutNs := if flushTimeoutNs ≤ 0 then 2000000000 else flushTimeoutNs.toNat,
    pending := [] }

/-- `Batcher.Flush` (ratelimit.go): swap out the queue; if it was empty return
`(nil, nil)` without calling the provider, else return
`provider.BatchComplete(reqs)`.  The last component logs the provider calls
made. -/
def batcherFlush (bc : BatchProvider) (b : BatcherState) :
    (List CompletionResponse × Option GoStr) × BatcherState × List (List CompletionRequest) :=
  let reqs := b.pending
  let b' := { b with pending := [] }
  if reqs = [] then (([], none), b', [])
  else (bc reqs, b', [reqs])

/-- `Batcher.Add` (ratelimit.go): append the request; when the pending count
has reached `batchSize`, flush — discarding the responses and the error
(`Add` returns nothing). -/
def batcherAdd (bc : BatchProvider) (b : BatcherState) (req : CompletionRequest) :
    BatcherState × List (List CompletionRequest) :=
  let b1 := { b with pending := b.pending ++ [req] }
  if b1.batchSize ≤ b1.pending.length then
    let r := batcherFlush bc b1
    (r.2.1, r.2.2)
  else (b1, [])

/-- **C9.** The Batcher accumulates requests in order: below the threshold,
`Add` just appends (no provider call); exactly when the pending count reaches
the batch size, `Add` flushes automatically, sending the whole queue in one
`BatchComplete` call and emptying it; `Flush` sends all queued requests and
returns the provider's responses, or returns empty with no error and no
provider call when nothing is queued.  `Add` and `Flush` are the only
operations — requests below the threshold stay queued until an explicit
`Flush` (the stored `flushTimeoutNs` is read by neither, so there is no
time-based flush). -/
theorem batcher_accumulate_and_flush :
    (∀ (bc : BatchProvider) (b : BatcherState) (req : CompletionRequest),
      b.pending.length + 1 < b.batchSize →
      batcherAdd bc b req = ({ b with pending := b.pending ++ [req] }, []))
    ∧ (∀ (bc : BatchProvider) (b : BatcherState) (req : CompletionRequest),
      b.batchSize ≤ b.pending.length + 1 →
      batcherAdd bc b req = ({ b with pending := [] }, [b.pending ++ [req]]))
    ∧ (∀ (bc : BatchProvider) (b : BatcherState),
      b.pending ≠ [] →
      batcherFlush bc b = (bc b.pending, { b with pending := [] }, [b.pending]))
    ∧ (∀ (bc : BatchProvider) (b : BatcherState),
      b.pending = [] →
      batcherFlush bc b = (([], none), { b with pending := [] }, [])) := by
  refine ⟨?_, ?_, ?_, ?_⟩
  · intro bc b req hlt
    have hc : ¬ b.batchSize ≤ b.pending.length + 1 := by omega
    simp [batcherAdd, hc]
  · intro bc b req hge
    have hne : b.pending ++ [req] ≠ [] := by simp
    simp [batcherAdd, batcherFlush, hge, hne]
  · intro bc b hne
    simp [batcherFlush, hne]
  · intro bc b hnil
    simp [batcherFlush, hnil]

/-- A concrete request used by the batcher witnesses. -/
def sampleReq : CompletionRequest := {}

/-- A concrete response used by the batcher witnesses. -/
def sampleResp : CompletionResponse := {}

/-- Witness for C9 at batch size 2. -/
theorem batcher_accumulate_and_flush_witness :
    (batcherAdd (fun _ => ([], none)) (NewBatcher 2 0) sampleReq
      = ({ NewBatcher 2 0 with pending := (NewBatcher 2 0).pending ++ [sampleReq] }, []))
    ∧ (batcherAdd (fun _ => ([], none))
        { NewBatcher 2 0 with pending := [sampleReq] } sampleReq
      = ({ NewBatcher 2 0 with pending := [] }, [[sampleReq] ++ [sampleReq]]))
    ∧ (batcherFlush (fun _ => ([], none)) { NewBatcher 2 0 with pending := [sampleReq] }
      = (((fun _ => (([], none) : List CompletionResponse × Option GoStr)) [sampleReq]),
         { NewBatcher 2 0 with pending := [] }, [[sampleReq]]))
    ∧ (batcherFlush (fun _ => ([], none)) (NewBatcher 2 0)
      = (([], none), { NewBatcher 2 0 with pending := [] }, [])) :=
  ⟨batcher_accumulate_and_flush.1 (fun _ => ([], none)) (NewBatcher 2 0) sampleReq
     (by decide),
   batcher_accumulate_and_flush.2.1 (fun _ => ([], none))
     { NewBatcher 2 0 with pending := [sampleReq] } sampleReq (by decide),
   batcher_accumulate_and_flush.2.2.1 (fun _ => ([], none))
     { NewBatcher 2 0 with pending := [sampleReq] } (by decide),
   batcher_accumulate_and_flush.2.2.2 (fun _ => ([], none)) (NewBatcher 2 0) rfl⟩

/-- **C10.** The responses and the error of an automatic (threshold-triggered)
flush are discarded: `Add`'s entire result — including whether and with which
batch the provider was called — is independent of what `BatchComplete`
returns, for *any* two providers, so a caller can never observe the responses
or a failure of an auto-flush.  Only an explicit `Flush` call delivers the
provider's responses and error to the caller. -/
theorem batcher_autoflush_discards_responses :
    (∀ (bc1 bc2 : BatchProvider) (b : BatcherState) (req : CompletionRequest),
      batcherAdd bc1 b req = batcherAdd bc2 b req)
    ∧ (∀ (bc : BatchProvider) (b : BatcherState),
      b.pending ≠ [] → (batcherFlush bc b).1 = bc b.pending) := by
  constructor
  · intro bc1 bc2 b req
    by_cases hc : b.batchSize ≤ b.pending.length + 1
    · simp [batcherAdd, batcherFlush, hc]
    · simp [batcherAdd, hc]
  · intro bc b hne
    simp [batcherFlush, hne]

/-- Witness for C10: an explicit flush of one queued request delivers the
provider's output. -/
theorem batcher_autoflush_discards_responses_witness :
    (batcherAdd (fun _ => ([], none)) (NewBatcher 2 0) sampleReq
      = batcherAdd (fun _ => ([sampleResp], some (str "boom"))) (NewBatcher 2 0) sampleReq)
    ∧ (batcherFlush (fun _ => ([sampleResp], some (str "boom")))
        { NewBatcher 2 0 with pending := [sampleReq] }).1
      = (fun _ => (([sampleResp], some (str "boom"))
          : List CompletionResponse × Option GoStr)) [sampleReq] :=
  ⟨batcher_autoflush_discards_responses.1 (fun _ => ([], none))
     (fun _ => ([sampleResp], some (str "boom"))) (NewBatcher 2 0) sampleReq,
   batcher_autoflush_discards_responses.2 (fun _ => ([sampleResp], some (str "boom")))
     { NewBatcher 2 0 with pending := [sampleReq] } (by decide)⟩

/-! ## Engine generation loop (engine.go) and worker pool (worker.go)

`Engine.Generate` reads and parses the source file (I/O, performed before
the loop), then for each extracted definition and each configured test type
calls `generateTestForDefinition`; a failed call is logged and skipped
(`continue`), a successful non-empty test is appended to the `allTests`
builder followed by `"\n\n"` and the definition's name is recorded.  If
nothing accumulated, the empty result is returned; otherwise the code is
post-processed (`postProcess`), formatted by the adapter (falling back to
the unformatted code when formatting fails) and stored on the result
together with the tested names.  The per-definition call and the adapter's
formatter are abstracted as function parameters `gen` and `format`; the
test-path computation and the file write/validation that follow are
outside the claims. -/

/-- Modelled from the spec: `models.Definition` (the `pkg/models` package is
not among the provided sources; only its callers are).  §3 of the spec lists
its attributes; the engine reads `Name` (accounting/logs) and `Body`
(prompt rendering alone), so only those are carried. -/
structure Definition where
  Name : GoStr := []
  Body : GoStr := []
deriving DecidableEq

/-- Modelled from the spec: `models.SourceFile` — `{Path, Language}` (§6). -/
structure SourceFile where
  Path : GoStr := []
  Language : GoStr := []
deriving DecidableEq

/-- Modelled from the spec: `models.GenerationResult` — per source file, the
generated test code, output path, tested definition names and an optional
error (§3); worker.go additionally sets `Error`/`ErrorMessage`, engine.go
sets `TestCode`, `FunctionsTested`, `TestCount`, `TestPath`.  The Go struct's
`SourceFile` pointer is an optional reference here. -/
structure GenerationResult where
  Source : Option SourceFile := none
  TestPath : GoStr := []
  TestCode : GoStr := []
  FunctionsTested : List GoStr := []
  TestCount : Nat := 0
  Error : Option GoStr := none
  ErrorMessage : GoStr := []
deriving DecidableEq

/-- The standard-import header `Engine.postProcess` (engine.go) computes per
language (the Go header uses the parsed package name). -/
def postProcessImports (language pkg : GoStr) : GoStr :=
  if language = str "go" then
    str "package " ++ pkg ++
      str "_test\n\nimport (\n\t\"testing\"\n\t\n\t\"github.com/stretchr/testify/assert\"\n\t\"github.com/stretchr/testify/require\"\n)\n\n"
  else if language = str "python" then
    str "import pytest\nfrom unittest.mock import Mock, patch\n\n"
  else if language = str "javascript" ∨ language = str "typescript" then []
  else if language = str "rust" then
    str "#[cfg(test)]\nmod tests \x7b\n    use super::*;\n\n"
  else []

/-- `Engine.postProcess` (engine.go): the header is prepended unless the Go
code already carries a `package ` declaration. -/
def postProcess (code language pkg : GoStr) : GoStr :=
  if language = str "go" ∧ occursIn (str "package ") code = true then code
  else postProcessImports language pkg ++ code

/-- The inner loop of `Engine.Generate` over the configured test types for
one definition: skip failures and empty results, append successful test code
followed by a blank line, record the definition's name per success. -/
def loopTypes (gen : Definition → GoStr → Except GoStr GoStr) (d : Definition) :
    List GoStr → GoStr × List GoStr
  | [] => ([], [])
  | t :: ts =>
    let rest := loopTypes gen d ts
    match gen d t with
    | .error _ => rest
    | .ok code =>
      if code = [] then rest else (code ++ str "\n\n" ++ rest.1, d.Name :: rest.2)

/-- The outer loop of `Engine.Generate` over the extracted definitions. -/
def loopDefs (gen : Definition → GoStr → Except GoStr GoStr) (testTypes : List GoStr) :
    List Definition → GoStr × List GoStr
  | [] => ([], [])
  | d :: ds =>
    let r1 := loopTypes gen d testTypes
    let r2 := loopDefs gen testTypes ds
    (r1.1 ++ r2.1, r1.2 ++ r2.2)

/-- `Engine.Generate` from the extracted definitions onward (engine.go lines
114–175): run the loop, return the empty result when nothing accumulated,
else post-process, format (falling back to the unformatted code on error)
and fill the result fields. -/
def generateFromDefinitions (gen : Definition → GoStr → Except GoStr GoStr)
    (format : GoStr → Except GoStr GoStr) (testTypes : List GoStr)
    (language pkg : GoStr) (src : SourceFile) (testPath : GoStr)
    (defs : List Definition) : GenerationResult :=
  let r := loopDefs gen testTypes defs
  if r.1 = [] then { Source := some src }
  else
    let finalCode := postProcess r.1 language pkg
    let formatted :=
      match format finalCode with
      | .ok f => f
      | .error _ => finalCode
    { Source := some src, TestCode := formatted, FunctionsTested := r.2,
      TestCount := r.2.length, TestPath := testPath }

theorem infix_postProcess {l code language pkg : GoStr} (h : l <:+: code) :
    l <:+: postProcess code language pkg := by
  unfold postProcess
  split
  · exact h
  · exact h.trans (List.suffix_append _ code).isInfix

/-- **C5.** Partial-failure isolation inside one `Engine.Generate` call: with
three definitions where the second provider call fails and the others
succeed (with non-empty code), the returned `GenerationResult` still lists
definitions 1 and 3 as tested and its test code contains both their
generated snippets; the failure is skipped, not propagated. -/
theorem generate_partial_failure
    (gen : Definition → GoStr → Except GoStr GoStr)
    (format : GoStr → Except GoStr GoStr) (t : GoStr)
    (d1 d2 d3 : Definition) (c1 c3 e : GoStr)
    (language pkg testPath : GoStr) (src : SourceFile)
    (h1 : gen d1 t = Except.ok c1) (h2 : gen d2 t = Except.error e)
    (h3 : gen d3 t = Except.ok c3) (hc1 : c1 ≠ []) (hc3 : c3 ≠ [])
    (hfmt : ∀ code, format code = Except.ok code) :
    (generateFromDefinitions gen format [t] language pkg src testPath
        [d1, d2, d3]).FunctionsTested = [d1.Name, d3.Name]
    ∧ c1 <:+: (generateFromDefinitions gen format [t] language pkg src testPath
        [d1, d2, d3]).TestCode
    ∧ c3 <:+: (generateFromDefinitions gen format [t] language pkg src testPath
        [d1, d2, d3]).TestCode := by
  have hr : loopDefs gen [t] [d1, d2, d3]
      = (c1 ++ (str "\n\n" ++ (c3 ++ str "\n\n")), [d1.Name, d3.Name]) := by
    simp [loopDefs, loopTypes, h1, h2, h3, hc1, hc3]
  have hne : c1 ++ (str "\n\n" ++ (c3 ++ str "\n\n")) ≠ [] := by
    simp [hc1]
  have hres : generateFromDefinitions gen format [t] language pkg src testPath [d1, d2, d3]
      = { Source := some src,
          TestCode := postProcess (c1 ++ (str "\n\n" ++ (c3 ++ str "\n\n"))) language pkg,
          FunctionsTested := [d1.Name, d3.Name],
          TestCount := [d1.Name, d3.Name].length, TestPath := testPath } := by
    unfold generateFromDefinitions
    rw [hr]
    simp only [hne, if_false, hfmt]
  rw [hres]
  refine ⟨rfl, ?_, ?_⟩
  · exact infix_postProcess ⟨[], str "\n\n" ++ (c3 ++ str "\n\n"), by simp⟩
  · exact infix_postProcess ⟨c1 ++ str "\n\n", str "\n\n", by simp⟩

/-- The per-definition generator used by the C5 witness: fails on `f2`. -/
def witnessGen (d : Definition) (_t : GoStr) : Except GoStr GoStr :=
  if d.Name = str "f2" then Except.error (str "boom")
  else Except.ok (str "func Test_" ++ d.Name)

/-- Witness for C5: three definitions, the second call fails. -/
theorem generate_partial_failure_witness :
    (generateFromDefinitions witnessGen Except.ok [str "unit"] (str "go") (str "mypkg")
        { Path := str "a.go", Language := str "go" } (str "a_test.go")
        [{ Name := str "f1" }, { Name := str "f2" }, { Name := str "f3" }]).FunctionsTested
      = [({ Name := str "f1" } : Definition).Name, ({ Name := str "f3" } : Definition).Name]
    ∧ (str "func Test_" ++ str "f1") <:+:
        (generateFromDefinitions witnessGen Except.ok [str "unit"] (str "go") (str "mypkg")
          { Path := str "a.go", Language := str "go" } (str "a_test.go")
          [{ Name := str "f1" }, { Name := str "f2" }, { Name := str "f3" }]).TestCode
    ∧ (str "func Test_" ++ str "f3") <:+:
        (generateFromDefinitions witnessGen Except.ok [str "unit"] (str "go") (str "mypkg")
          { Path := str "a.go", Language := str "go" } (str "a_test.go")
          [{ Name := str "f1" }, { Name := str "f2" }, { Name := str "f3" }]).TestCode :=
  generate_partial_failure witnessGen Except.ok (str "unit")
    { Name := str "f1" } { Name := str "f2" } { Name := str "f3" }
    (str "func Test_" ++ str "f1") (str "func Test_" ++ str "f3") (str "boom")
    (str "go") (str "mypkg") (str "a_test.go")
    { Path := str "a.go", Language := str "go" }
    rfl rfl rfl (by decide) (by decide) (fun _ => rfl)

/-! ### Worker pool (worker.go)

`ProcessFiles` starts the workers, submits every file (an adapter-missing
file becomes an immediate error result and never enters the job queue; the
others are enqueued), drains exactly `len(files)` results and joins the
workers.  With a never-cancelled context every submitted job is processed by
exactly one worker — `Generate` errors are wrapped into error results, never
dropped — so the multiset of results is the per-file outcome below; the
model sequentialises the fan-out/fan-in (result order across files is
explicitly unspecified in the spec). -/

/-- `WorkerPool.Submit` (worker.go): resolve the adapter; without one,
synthesize the error result immediately (no job); otherwise enqueue the job.
The adapter type is abstract. -/
def submitFile {α : Type} (getAdapter : GoStr → Option α) (f : SourceFile) :
    Sum GenerationResult (SourceFile × α) :=
  match getAdapter f.Language with
  | none => Sum.inl { Source := some f,
                      ErrorMessage := str "no adapter for language: " ++ f.Language }
  | some a => Sum.inr (f, a)

/-- The worker body (worker.go): run `engine.Generate`, wrapping a failure
into an error result carrying the message. -/
def workerRun {α : Type} (generate : SourceFile → α → Except GoStr GenerationResult)
    (j : SourceFile × α) : GenerationResult :=
  match generate j.1 j.2 with
  | .ok r => r
  | .error e => { Source := some j.1, Error := some e, ErrorMessage := e }

/-- `WorkerPool.ProcessFiles` (worker.go) under a never-cancelled context:
every file is submitted, every job is processed, exactly `len(files)`
results are drained. -/
def processFiles {α : Type} (getAdapter : GoStr → Option α)
    (generate : SourceFile → α → Except GoStr GenerationResult)
    (files : List SourceFile) : List GenerationResult :=
  (files.map (submitFile getAdapter)).map fun x =>
    match x with
    | .inl r => r
    | .inr j => workerRun generate j

/-- **C6.** With no cancellation, `ProcessFiles` over `N` files yields exactly
`N` results, one per input file: a file whose language has no registered
adapter contributes an immediate error result without entering the job queue
(its submission is the `inl` error result, not a job), and a file whose
generation fails contributes a wrapped error result rather than being
dropped. -/
theorem processFiles_completeness {α : Type} (getAdapter : GoStr → Option α)
    (generate : SourceFile → α → Except GoStr GenerationResult)
    (files : List SourceFile) :
    (processFiles getAdapter generate files).length = files.length
    ∧ (∀ f ∈ files, getAdapter f.Language = none →
        Sum.inl ({ Source := some f,
                   ErrorMessage := str "no adapter for language: " ++ f.Language }
            : GenerationResult)
          ∈ files.map (submitFile getAdapter)
        ∧ ({ Source := some f,
             ErrorMessage := str "no adapter for language: " ++ f.Language }
            : GenerationResult) ∈ processFiles getAdapter generate files)
    ∧ (∀ f a e, f ∈ files → getAdapter f.Language = some a →
        generate f a = Except.error e →
        ({ Source := some f, Error := some e, ErrorMessage := e } : GenerationResult)
          ∈ processFiles getAdapter generate files) := by
  refine ⟨by simp [processFiles], ?_, ?_⟩
  · intro f hf hnone
    constructor
    · exact List.mem_map.mpr ⟨f, hf, by simp [submitFile, hnone]⟩
    · refine List.mem_map.mpr ⟨Sum.inl { Source := some f,
                                          ErrorMessage := str "no adapter for language: " ++ f.Language },
        ?_, rfl⟩
      exact List.mem_map.mpr ⟨f, hf, by simp [submitFile, hnone]⟩
  · intro f a e hf hsome herr
    refine List.mem_map.mpr ⟨Sum.inr (f, a), ?_, ?_⟩
    · exact List.mem_map.mpr ⟨f, hf, by simp [submitFile, hsome]⟩
    · simp [workerRun, herr]

/-- The adapter lookup used by the C6 witness: only `go` is registered. -/
def witnessGetAdapter (language : GoStr) : Option Unit :=
  if language = str "go" then some () else none

/-- The engine call used by the C6 witness: fails on `bad.go`. -/
def witnessGenerate (f : SourceFile) (_a : Unit) : Except GoStr GenerationResult :=
  if f.Path = str "bad.go" then Except.error (str "parse failure")
  else Except.ok { Source := some f, TestCode := str "ok" }

/-- Witness for C6: three files — one fine, one with an unknown language, one
whose generation fails. -/
theorem processFiles_completeness_witness :
    (processFiles witnessGetAdapter witnessGenerate
        [{ Path := str "a.go", Language := str "go" },
         { Path := str "b.cob", Language := str "cobol" },
         { Path := str "bad.go", Language := str "go" }]).length
      = [({ Path := str "a.go", Language := str "go" } : SourceFile),
         { Path := str "b.cob", Language := str "cobol" },
         { Path := str "bad.go", Language := str "go" }].length
    ∧ ({ Source := some { Path := str "b.cob", Language := str "cobol" },
         ErrorMessage := str "no adapter for language: " ++ str "cobol" }
        : GenerationResult)
      ∈ processFiles witnessGetAdapter witnessGenerate
        [{ Path := str "a.go", Language := str "go" },
         { Path := str "b.cob", Language := str "cobol" },
         { Path := str "bad.go", Language := str "go" }]
    ∧ ({ Source := some { Path := str "bad.go", Language := str "go" },
         Error := some (str "parse failure"), ErrorMessage := str "parse failure" }
        : GenerationResult)
      ∈ processFiles witnessGetAdapter witnessGenerate
        [{ Path := str "a.go", Language := str "go" },
         { Path := str "b.cob", Language := str "cobol" },
         { Path := str "bad.go", Language := str "go" }] :=
  ⟨(processFiles_completeness witnessGetAdapter witnessGenerate _).1,
   ((processFiles_completeness witnessGetAdapter witnessGenerate _).2.1
      { Path := str "b.cob", Language := str "cobol" } (by simp) rfl).2,
   (processFiles_completeness witnessGetAdapter witnessGenerate _).2.2
      { Path := str "bad.go", Language := str "go" } () (str "parse failure")
      (by simp) rfl rfl⟩

end TestGen
